import Mathlib

/-!
Verification development for the massi repository's natural-language-to-SQL
pipeline (`src/utils/nl_to_sql.py`, `src/models/llm_interface.py`,
`src/utils/cached_query_system.py`, `src/utils/visualization.py`,
`src/utils/secrets_manager.py`).

Strings are embedded as `List Char`.  Python regular-expression operations are
embedded as executable scanning functions with the same semantics on the
character classes that occur in this code base.
-/

namespace Massi

/-- Characters that Python's regex `\w` (Unicode word character) recognises,
restricted to the alphabet occurring in this code base: ASCII alphanumerics,
the underscore, and the Finnish letters appearing in the protected column
names. -/
def isWordChar (c : Char) : Bool :=
  c.isAlphanum || c == '_' || c == 'ä' || c == 'ö' || c == 'Ä' || c == 'Ö'

/-- A character rejected by the lookarounds `(?<![`\w])` and `(?![`\w])` of
`_handle_finnish_characters`: a word character or a backtick. -/
def isWB (c : Char) : Bool := isWordChar c || c == '`'

/-- Python `\s` whitespace characters (ASCII range). -/
def isSpaceChar (c : Char) : Bool :=
  c == ' ' || c == '\t' || c == '\n' || c == '\r' || c == '\x0b' || c == '\x0c'

/-- The lookahead `(?![`\w])` applied to the rest of the input: succeeds at end
of input or when the next character is neither a word character nor a
backtick. -/
def okAfter : List Char → Bool
  | [] => true
  | c :: _ => !isWB c

/-- The full test performed by the pattern `(?<![`\w])(col)(?![`\w])` at the
current position of `s`; `blocked` records whether the previous character of
the original string is a word character or backtick (at the start of the
string the lookbehind succeeds, i.e. `blocked = false`). -/
def matchHere (col : List Char) (blocked : Bool) (s : List Char) : Bool :=
  !col.isEmpty && col.isPrefixOf s && !blocked && okAfter (List.drop col.length s)

/-- `re.sub` of the pattern `(?<![`\w])(col)(?![`\w])` with replacement
`` `col` ``, scanning left to right over the original string and continuing
after the end of each match (matches do not overlap).  The `skip` counter
consumes the remaining characters of a match that has already been emitted in
wrapped form; `blocked` always reflects the previous character of the
*original* string, exactly as the lookbehind does. -/
def subColAuxS (col : List Char) : Bool → Nat → List Char → List Char
  | _, _, [] => []
  | blocked, 0, c :: rest =>
    if matchHere col blocked (c :: rest) then
      ('`' :: col ++ ['`']) ++ subColAuxS col (isWB c) (col.length - 1) rest
    else
      c :: subColAuxS col (isWB c) 0 rest
  | _, skip + 1, c :: rest => subColAuxS col (isWB c) skip rest

/-- One `re.sub` pass for a single protected column name. -/
def subCol (col s : List Char) : List Char := subColAuxS col false 0 s

/-- `re.search` of the same pattern: does any position of `s` match? -/
def hasMatchAux (col : List Char) : Bool → List Char → Bool
  | _, [] => false
  | blocked, c :: rest => matchHere col blocked (c :: rest) || hasMatchAux col (isWB c) rest

def hasMatch (col s : List Char) : Bool := hasMatchAux col false s

/-- The protected column list of `NLToSQLConverter._handle_finnish_characters`. -/
def finnishColumnsConv : List (List Char) :=
  ["Käytettävissä".data, "Lisätalousarvio".data, "Nettokertymä".data,
   "Nettokertymä_ko_vuodelta".data, "Kirjanpitoyksikkö".data, "Loppusaldo".data,
   "Alkuperäinen_talousarvio".data, "Voimassaoleva_talousarvio".data]

/-- The protected column list of `EnhancedNLToSQLConverter._handle_finnish_characters`. -/
def finnishColumnsEnh : List (List Char) :=
  ["Käytettävissä".data, "Lisätalousarvio".data, "Nettokertymä".data,
   "Nettokertymä_ko_vuodelta".data, "Kirjanpitoyksikkö".data, "Loppusaldo".data,
   "Alkuperäinen_talousarvio".data]

/-- One loop iteration of `NLToSQLConverter._handle_finnish_characters`: the
`re.sub` is guarded by an `re.search` test. -/
def sanStep (acc col : List Char) : List Char :=
  if hasMatch col acc then subCol col acc else acc

/-- `NLToSQLConverter._handle_finnish_characters`. -/
def handleFinnishCharacters (s : List Char) : List Char :=
  finnishColumnsConv.foldl sanStep s

/-- One loop iteration of `EnhancedNLToSQLConverter._handle_finnish_characters`
(unconditional `re.sub`). -/
def sanStepEnh (acc col : List Char) : List Char := subCol col acc

/-- `EnhancedNLToSQLConverter._handle_finnish_characters`. -/
def handleFinnishCharactersEnh (s : List Char) : List Char :=
  finnishColumnsEnh.foldl sanStepEnh s

/-- A protected name as they occur in the source: non-empty, made of word
characters only. -/
def wordColumn (col : List Char) : Prop :=
  col ≠ [] ∧ ∀ c ∈ col, isWordChar c = true

instance (col : List Char) : Decidable (wordColumn col) := by
  unfold wordColumn; infer_instance

example : subCol "Nettokertymä".data "SELECT Nettokertymä FROM t".data
    = "SELECT `Nettokertymä` FROM t".data := by decide

example : subCol "Nettokertymä".data "SELECT `Nettokertymä` FROM t".data
    = "SELECT `Nettokertymä` FROM t".data := by decide

example : subCol "Budget".data "SELECT SubBudgetX FROM t".data
    = "SELECT SubBudgetX FROM t".data := by decide

example : handleFinnishCharacters "SELECT Nettokertymä, Loppusaldo FROM t".data
    = "SELECT `Nettokertymä`, `Loppusaldo` FROM t".data := by decide

/-! ### Basic list helpers -/

lemma getLastD_irrel : ∀ (l : List Char), l ≠ [] → ∀ d₁ d₂ : Char, l.getLastD d₁ = l.getLastD d₂
  | [], h, _, _ => absurd rfl h
  | [_], _, _, _ => rfl
  | a :: b :: t, _, d₁, d₂ => by
      simp only [List.getLastD_cons]

lemma getLastD_mem : ∀ (l : List Char) (d : Char), l ≠ [] → l.getLastD d ∈ l
  | [], _, h => absurd rfl h
  | [a], d, _ => by simp
  | a :: b :: t, d, _ => by
      rw [List.getLastD_cons]
      exact List.mem_cons_of_mem a (getLastD_mem (b :: t) a (by simp))

lemma isPrefixOf_nil_false : ∀ (col : List Char), col ≠ [] → col.isPrefixOf ([] : List Char) = false
  | [], h => absurd rfl h
  | _ :: _, _ => rfl

lemma isPrefixOf_nil_left (s : List Char) : List.isPrefixOf [] s = true := by
  cases s <;> rfl

lemma isPrefixOf_append_drop : ∀ (w s : List Char), w.isPrefixOf s = true →
    w ++ List.drop w.length s = s
  | [], s, _ => by simp
  | a :: w', [], h => by simp [List.isPrefixOf] at h
  | a :: w', b :: s', h => by
      simp only [List.isPrefixOf, Bool.and_eq_true, beq_iff_eq] at h
      obtain ⟨rfl, h2⟩ := h
      simp only [List.length_cons, List.drop_succ_cons, List.cons_append, List.cons.injEq,
        true_and]
      exact isPrefixOf_append_drop w' s' h2

lemma isPrefixOf_self_append : ∀ (w t : List Char), w.isPrefixOf (w ++ t) = true
  | [], t => isPrefixOf_nil_left t
  | a :: w', t => by
      simp only [List.cons_append, List.isPrefixOf, Bool.and_eq_true, beq_iff_eq, true_and]
      exact isPrefixOf_self_append w' t

lemma isPrefixOf_of_le : ∀ (u col L : List Char), u.isPrefixOf L = true →
    col.isPrefixOf L = true → u.length ≤ col.length → u.isPrefixOf col = true
  | [], col, _, _, _, _ => isPrefixOf_nil_left col
  | a :: u', col, [], h1, _, _ => by simp [List.isPrefixOf] at h1
  | a :: u', [], c :: L', _, _, hle => by simp at hle
  | a :: u', b :: col', c :: L', h1, h2, hle => by
      simp only [List.isPrefixOf, Bool.and_eq_true, beq_iff_eq] at h1 h2 ⊢
      obtain ⟨rfl, h1'⟩ := h1
      obtain ⟨rfl, h2'⟩ := h2
      simp only [List.length_cons, Nat.add_le_add_iff_right] at hle
      exact ⟨rfl, isPrefixOf_of_le u' col' L' h1' h2' hle⟩

lemma mem_of_isPrefixOf : ∀ (u col : List Char), u.isPrefixOf col = true → ∀ x ∈ u, x ∈ col
  | [], _, _, x, hx => by simp at hx
  | a :: u', [], h, _, _ => by simp [List.isPrefixOf] at h
  | a :: u', b :: col', h, x, hx => by
      simp only [List.isPrefixOf, Bool.and_eq_true, beq_iff_eq] at h
      obtain ⟨rfl, h'⟩ := h
      rcases List.mem_cons.mp hx with rfl | hx'
      · exact List.mem_cons_self x col'
      · exact List.mem_cons_of_mem a (mem_of_isPrefixOf u' col' h' x hx')

/-! ### Step equations for the substitution scanner -/

lemma matchHere_parts {col : List Char} {b : Bool} {s : List Char}
    (h : matchHere col b s = true) :
    col ≠ [] ∧ col.isPrefixOf s = true ∧ b = false ∧
      okAfter (List.drop col.length s) = true := by
  unfold matchHere at h
  rw [Bool.and_eq_true, Bool.and_eq_true, Bool.and_eq_true] at h
  refine ⟨?_, h.1.1.2, ?_, h.2⟩
  · intro hc; subst hc; simp at h
  · have := h.1.2; simpa using this

lemma subS_skip (col : List Char) : ∀ (u : List Char), u ≠ [] → ∀ (b : Bool) (rest : List Char),
    subColAuxS col b u.length (u ++ rest) = subColAuxS col (isWB (u.getLastD ' ')) 0 rest
  | [], h, _, _ => absurd rfl h
  | [a], _, b, rest => by simp [subColAuxS]
  | a :: x :: u', _, b, rest => by
      have ih := subS_skip col (x :: u') (by simp) (isWB a) rest
      show subColAuxS col (isWB a) (x :: u').length ((x :: u') ++ rest)
          = subColAuxS col (isWB ((a :: x :: u').getLastD ' ')) 0 rest
      rw [ih]
      have he : (a :: x :: u').getLastD ' ' = (x :: u').getLastD ' ' := by
        rw [List.getLastD_cons]
        exact getLastD_irrel _ (by simp) a ' '
      rw [he]

lemma subS_else (col : List Char) (b : Bool) (c : Char) (rest : List Char)
    (h : matchHere col b (c :: rest) = false) :
    subColAuxS col b 0 (c :: rest) = c :: subColAuxS col (isWB c) 0 rest := by
  simp [subColAuxS, h]

lemma subS_then (col : List Char) (b : Bool) (s : List Char) (h : matchHere col b s = true) :
    subColAuxS col b 0 s
      = '`' :: (col ++ '`' ::
          subColAuxS col (isWB (col.getLastD ' ')) 0 (List.drop col.length s)) := by
  obtain ⟨hne, hpre, -, -⟩ := matchHere_parts h
  cases col with
  | nil => exact absurd rfl hne
  | cons c ct =>
    cases s with
    | nil => simp [List.isPrefixOf] at hpre
    | cons c' rest =>
      simp only [List.isPrefixOf, Bool.and_eq_true, beq_iff_eq] at hpre
      obtain ⟨rfl, hpre'⟩ := hpre
      show subColAuxS (c :: ct) b 0 (c :: rest) = _
      rw [show subColAuxS (c :: ct) b 0 (c :: rest)
            = ('`' :: (c :: ct) ++ ['`']) ++ subColAuxS (c :: ct) (isWB c) ((c :: ct).length - 1) rest
          from by simp [subColAuxS, h]]
      cases ct with
      | nil =>
        simp [List.getLastD]
      | cons x ct' =>
        have hdecomp := isPrefixOf_append_drop (x :: ct') rest hpre'
        have hskip := subS_skip (c :: x :: ct') (x :: ct') (by simp) (isWB c)
          (List.drop (x :: ct').length rest)
        rw [show ((c :: x :: ct').length - 1) = (x :: ct').length from rfl]
        rw [show subColAuxS (c :: x :: ct') (isWB c) (x :: ct').length rest
              = subColAuxS (c :: x :: ct') (isWB c) (x :: ct').length
                  ((x :: ct') ++ List.drop (x :: ct').length rest) from by rw [hdecomp]]
        rw [hskip]
        simp only [List.length_cons, List.drop_succ_cons, List.getLastD_cons]
        simp

/-! ### The insertion relation

`BackRel s t` holds when `t` arises from `s` by inserting backtick characters.
Every `re.sub` pass of the sanitizer produces such a `t`, and a whole-word
unquoted occurrence of a word-character column name in `t` pulls back to one
in `s`; this is the backbone of the idempotence and preservation arguments. -/

inductive BackRel : List Char → List Char → Prop
  | nil : BackRel [] []
  | cons (c : Char) {s t : List Char} : BackRel s t → BackRel (c :: s) (c :: t)
  | tick {s t : List Char} : BackRel s t → BackRel s ('`' :: t)

lemma backRel_append_left (u : List Char) {s t : List Char} (r : BackRel s t) :
    BackRel (u ++ s) (u ++ t) := by
  induction u with
  | nil => simpa using r
  | cons a u' ih => exact BackRel.cons a ih

lemma backRel_sub (col : List Char) :
    ∀ (n : Nat) (s : List Char), s.length ≤ n → ∀ b, BackRel s (subColAuxS col b 0 s) := by
  intro n
  induction n with
  | zero =>
    intro s hs b
    have : s = [] := List.length_eq_zero.mp (Nat.le_zero.mp hs)
    subst this
    exact BackRel.nil
  | succ n ih =>
    intro s hs b
    cases s with
    | nil => exact BackRel.nil
    | cons c rest =>
      by_cases hm : matchHere col b (c :: rest) = true
      · obtain ⟨hne, hpre, -, -⟩ := matchHere_parts hm
        rw [subS_then col b _ hm]
        have hdec := isPrefixOf_append_drop col (c :: rest) hpre
        set t := List.drop col.length (c :: rest) with ht
        have hlen : t.length ≤ n := by
          have h1 : 0 < col.length := List.length_pos.mpr hne
          have h2 : t.length = (c :: rest).length - col.length := by
            rw [ht, List.length_drop]
          simp only [List.length_cons] at hs h2
          omega
        have hrel : BackRel t (subColAuxS col (isWB (col.getLastD ' ')) 0 t) :=
          ih t hlen _
        rw [← hdec]
        exact BackRel.tick (backRel_append_left col (BackRel.tick hrel))
      · rw [subS_else col b c rest (by simpa using hm)]
        exact BackRel.cons c (ih rest (by simp only [List.length_cons] at hs; omega) (isWB c))

lemma isWordChar_tick_false : isWordChar '`' = false := by decide

lemma isWB_tick : isWB '`' = true := by decide

lemma isWB_of_word {c : Char} (h : isWordChar c = true) : isWB c = true := by
  simp [isWB, h]

/-- A prefix made of word characters pulls back through backtick insertion. -/
lemma isPrefixOf_down : ∀ (w : List Char), (∀ c ∈ w, isWordChar c = true) →
    ∀ {s t : List Char}, BackRel s t → w.isPrefixOf t = true →
      w.isPrefixOf s = true ∧ BackRel (List.drop w.length s) (List.drop w.length t)
  | [], _, s, t, r, _ => ⟨isPrefixOf_nil_left s, by simpa using r⟩
  | a :: w', hw, s, t, r, hpre => by
      cases r with
      | nil => simp [List.isPrefixOf] at hpre
      | cons c r' =>
        simp only [List.isPrefixOf, Bool.and_eq_true, beq_iff_eq] at hpre
        obtain ⟨rfl, hpre'⟩ := hpre
        have hw' : ∀ c ∈ w', isWordChar c = true := fun c hc => hw c (List.mem_cons_of_mem a hc)
        obtain ⟨h1, h2⟩ := isPrefixOf_down w' hw' r' hpre'
        exact ⟨by simp [List.isPrefixOf, h1], by simpa using h2⟩
      | tick r' =>
        simp only [List.isPrefixOf, Bool.and_eq_true, beq_iff_eq] at hpre
        obtain ⟨rfl, -⟩ := hpre
        have := hw '`' (List.mem_cons_self _ _)
        rw [isWordChar_tick_false] at this
        exact absurd this (by simp)

/-- The free-lookahead test pulls back through backtick insertion. -/
lemma okAfter_down {s t : List Char} (r : BackRel s t) (h : okAfter t = true) :
    okAfter s = true := by
  cases r with
  | nil => exact h
  | cons c r' =>
    simpa [okAfter] using h
  | tick r' =>
    rw [okAfter, isWB_tick] at h
    simp at h

/-- A whole-word unquoted match in the backtick-inserted string pulls back. -/
lemma matchHere_down {col : List Char} (hcol : wordColumn col) {s t : List Char}
    (r : BackRel s t) {b : Bool} (h : matchHere col b t = true) :
    matchHere col b s = true := by
  obtain ⟨hne, hpre, hb, hok⟩ := matchHere_parts h
  obtain ⟨hpre', hrel⟩ := isPrefixOf_down col hcol.2 r hpre
  have hok' : okAfter (List.drop col.length s) = true := okAfter_down hrel hok
  subst hb
  have hempty : col.isEmpty = false := by
    cases col with
    | nil => exact absurd rfl hne
    | cons a ct => rfl
  unfold matchHere
  rw [hempty, hpre', hok']
  rfl

/-- Scanning with `blocked = true` finds no match that scanning with any
other initial flag missed. -/
lemma hasMatchAux_true_of : ∀ (col : List Char) (s : List Char) (b : Bool),
    hasMatchAux col b s = false → hasMatchAux col true s = false
  | _, [], _, _ => rfl
  | col, c :: rest, b, h => by
      simp only [hasMatchAux, Bool.or_eq_false_iff] at h ⊢
      refine ⟨?_, h.2⟩
      unfold matchHere
      simp

/-- Preservation: a backtick-insertion never creates a new whole-word unquoted
occurrence of a word-character column name. -/
lemma hasMatchAux_down {col : List Char} (hcol : wordColumn col) :
    ∀ {s t : List Char}, BackRel s t → ∀ b, hasMatchAux col b s = false →
      hasMatchAux col b t = false := by
  intro s t r
  induction r with
  | nil => intro b h; exact h
  | cons c r' ih =>
    intro b h
    simp only [hasMatchAux, Bool.or_eq_false_iff] at h ⊢
    constructor
    · cases hmt : matchHere col b (c :: _) with
      | false => rfl
      | true =>
        have := matchHere_down hcol (BackRel.cons c r') hmt
        simp [h.1] at this
    · exact ih (isWB c) h.2
  | tick r' ih =>
    intro b h
    simp only [hasMatchAux, Bool.or_eq_false_iff] at h ⊢
    constructor
    · unfold matchHere
      cases hc : col with
      | nil => simp [hc] at hcol; exact absurd hcol.1 (by simp)
      | cons a ct =>
        have ha : isWordChar a = true := by
          rw [hc] at hcol
          exact hcol.2 a (List.mem_cons_self _ _)
        have hne : a ≠ '`' := by
          intro he; rw [he, isWordChar_tick_false] at ha; exact Bool.false_ne_true ha
        simp [List.isPrefixOf, hne]
    · rw [isWB_tick]
      exact ih true (hasMatchAux_true_of col _ b h)

lemma matchHere_blocked_false (col : List Char) (s : List Char) :
    matchHere col true s = false := by
  unfold matchHere
  simp

lemma matchHere_tick_head (col : List Char) (hcol : wordColumn col) (b : Bool)
    (x : List Char) : matchHere col b ('`' :: x) = false := by
  unfold matchHere
  cases hc : col with
  | nil => simp [hc]
  | cons a ct =>
    have ha : isWordChar a = true := by
      rw [hc] at hcol
      exact hcol.2 a (List.mem_cons_self _ _)
    have hne : a ≠ '`' := by
      intro he; rw [he, isWordChar_tick_false] at ha; exact Bool.false_ne_true ha
    simp [List.isPrefixOf, hne]

/-- Scanning through a run of blocking characters finds nothing inside it. -/
lemma hasMatchAux_blocked_run (col : List Char) :
    ∀ (w : List Char), (∀ c ∈ w, isWB c = true) → ∀ (z : List Char),
      hasMatchAux col true (w ++ z) = hasMatchAux col true z
  | [], _, z => rfl
  | a :: w', hw, z => by
      have ha : isWB a = true := hw a (List.mem_cons_self _ _)
      have hw' : ∀ c ∈ w', isWB c = true := fun c hc => hw c (List.mem_cons_of_mem a hc)
      show (matchHere col true (a :: (w' ++ z)) || hasMatchAux col (isWB a) (w' ++ z))
          = hasMatchAux col true z
      rw [matchHere_blocked_false, ha, hasMatchAux_blocked_run col w' hw' z]
      simp

/-- After one `re.sub` pass for `col`, the output contains no further
whole-word unquoted occurrence of `col`: a second pass would be a no-op. -/
lemma hasMatch_sub_self {col : List Char} (hcol : wordColumn col) :
    ∀ (n : Nat) (s : List Char), s.length ≤ n → ∀ b,
      hasMatchAux col b (subColAuxS col b 0 s) = false := by
  intro n
  induction n with
  | zero =>
    intro s hs b
    have : s = [] := List.length_eq_zero.mp (Nat.le_zero.mp hs)
    subst this
    rfl
  | succ n ih =>
    intro s hs b
    cases s with
    | nil => rfl
    | cons c rest =>
      by_cases hm : matchHere col b (c :: rest) = true
      · obtain ⟨hne, hpre, -, -⟩ := matchHere_parts hm
        rw [subS_then col b _ hm]
        set t := List.drop col.length (c :: rest) with ht
        have hlen : t.length ≤ n := by
          have h1 : 0 < col.length := List.length_pos.mpr hne
          have h2 : t.length = (c :: rest).length - col.length := by
            rw [ht, List.length_drop]
          simp only [List.length_cons] at hs h2
          omega
        have htb : isWB (col.getLastD ' ') = true :=
          isWB_of_word (hcol.2 _ (getLastD_mem col ' ' hne))
        show (matchHere col b ('`' :: (col ++ '`' :: subColAuxS col (isWB (col.getLastD ' ')) 0 t))
            || hasMatchAux col (isWB '`') (col ++ '`' :: subColAuxS col (isWB (col.getLastD ' ')) 0 t)) = false
        rw [matchHere_tick_head col hcol, isWB_tick,
          hasMatchAux_blocked_run col col (fun c hc => isWB_of_word (hcol.2 c hc))]
        show (false || hasMatchAux col true ('`' :: subColAuxS col (isWB (col.getLastD ' ')) 0 t)) = false
        rw [Bool.false_or]
        show (matchHere col true _ || hasMatchAux col (isWB '`') _) = false
        rw [matchHere_blocked_false, isWB_tick, htb]
        have := ih t hlen true
        simp [this]
      · rw [subS_else col b c rest (by simpa using hm)]
        show (matchHere col b (c :: subColAuxS col (isWB c) 0 rest)
            || hasMatchAux col (isWB c) (subColAuxS col (isWB c) 0 rest)) = false
        have hrest : rest.length ≤ n := by
          simp only [List.length_cons] at hs; omega
        rw [ih rest hrest (isWB c)]
        have hrel : BackRel (c :: rest) (c :: subColAuxS col (isWB c) 0 rest) :=
          BackRel.cons c (backRel_sub col n rest hrest (isWB c))
        cases hmt : matchHere col b (c :: subColAuxS col (isWB c) 0 rest) with
        | false => rfl
        | true =>
          have := matchHere_down hcol hrel hmt
          simp [this] at hm

/-- Without a match the pass copies its input verbatim. -/
lemma sub_id_of_noMatch (col : List Char) :
    ∀ (s : List Char) (b : Bool), hasMatchAux col b s = false → subColAuxS col b 0 s = s
  | [], _, _ => rfl
  | c :: rest, b, h => by
      simp only [hasMatchAux, Bool.or_eq_false_iff] at h
      rw [subS_else col b c rest h.1, sub_id_of_noMatch col rest (isWB c) h.2]

lemma hasMatch_sub (col s : List Char) {c1 : List Char} (hc1 : wordColumn c1)
    (h : hasMatch c1 s = false) : hasMatch c1 (subCol col s) = false :=
  hasMatchAux_down hc1 (backRel_sub col s.length s le_rfl false) false h

lemma hasMatch_sanStep (col s : List Char) {c1 : List Char} (hc1 : wordColumn c1)
    (h : hasMatch c1 s = false) : hasMatch c1 (sanStep s col) = false := by
  unfold sanStep
  by_cases hg : hasMatch col s = true
  · rw [if_pos hg]; exact hasMatch_sub col s hc1 h
  · rw [if_neg hg]; exact h

lemma hasMatch_foldl {c1 : List Char} (hc1 : wordColumn c1) :
    ∀ (cols : List (List Char)) (s : List Char), hasMatch c1 s = false →
      hasMatch c1 (cols.foldl sanStep s) = false
  | [], _, h => h
  | col :: cols', s, h =>
      hasMatch_foldl hc1 cols' (sanStep s col) (hasMatch_sanStep col s hc1 h)

lemma hasMatch_foldl_enh {c1 : List Char} (hc1 : wordColumn c1) :
    ∀ (cols : List (List Char)) (s : List Char), hasMatch c1 s = false →
      hasMatch c1 (cols.foldl sanStepEnh s) = false
  | [], _, h => h
  | col :: cols', s, h =>
      hasMatch_foldl_enh hc1 cols' (sanStepEnh s col) (hasMatch_sub col s hc1 h)

lemma hasMatch_foldl_self :
    ∀ (cols : List (List Char)), (∀ c ∈ cols, wordColumn c) →
      ∀ (s : List Char) (c1 : List Char), c1 ∈ cols →
        hasMatch c1 (cols.foldl sanStep s) = false
  | [], _, _, _, hmem => by simp at hmem
  | col :: cols', hall, s, c1, hmem => by
      rcases List.mem_cons.mp hmem with rfl | hmem'
      · have hw : wordColumn c1 := hall c1 (List.mem_cons_self _ _)
        apply hasMatch_foldl hw cols'
        unfold sanStep
        by_cases hg : hasMatch c1 s = true
        · rw [if_pos hg]
          exact hasMatch_sub_self hw s.length s le_rfl false
        · rw [if_neg hg]
          simpa using hg
      · exact hasMatch_foldl_self cols'
          (fun c hc => hall c (List.mem_cons_of_mem col hc)) (sanStep s col) c1 hmem'

lemma hasMatch_foldl_self_enh :
    ∀ (cols : List (List Char)), (∀ c ∈ cols, wordColumn c) →
      ∀ (s : List Char) (c1 : List Char), c1 ∈ cols →
        hasMatch c1 (cols.foldl sanStepEnh s) = false
  | [], _, _, _, hmem => by simp at hmem
  | col :: cols', hall, s, c1, hmem => by
      rcases List.mem_cons.mp hmem with rfl | hmem'
      · have hw : wordColumn c1 := hall c1 (List.mem_cons_self _ _)
        exact hasMatch_foldl_enh hw cols' _ (hasMatch_sub_self hw s.length s le_rfl false)
      · exact hasMatch_foldl_self_enh cols'
          (fun c hc => hall c (List.mem_cons_of_mem col hc)) (sanStepEnh s col) c1 hmem'

lemma foldl_id_of_noMatch :
    ∀ (cols : List (List Char)) (s : List Char), (∀ c ∈ cols, hasMatch c s = false) →
      cols.foldl sanStep s = s
  | [], _, _ => rfl
  | col :: cols', s, h => by
      have hstep : sanStep s col = s := by
        unfold sanStep
        rw [if_neg (by simp [h col (List.mem_cons_self _ _)])]
      rw [List.foldl_cons, hstep]
      exact foldl_id_of_noMatch cols' s (fun c hc => h c (List.mem_cons_of_mem col hc))

lemma foldl_id_of_noMatch_enh :
    ∀ (cols : List (List Char)) (s : List Char), (∀ c ∈ cols, hasMatch c s = false) →
      cols.foldl sanStepEnh s = s
  | [], _, _ => rfl
  | col :: cols', s, h => by
      have hstep : sanStepEnh s col = s :=
        sub_id_of_noMatch col s false (h col (List.mem_cons_self _ _))
      rw [List.foldl_cons, hstep]
      exact foldl_id_of_noMatch_enh cols' s (fun c hc => h c (List.mem_cons_of_mem col hc))

lemma wordColumn_conv : ∀ c ∈ finnishColumnsConv, wordColumn c := by decide

lemma wordColumn_enh : ∀ c ∈ finnishColumnsEnh, wordColumn c := by decide

/-- C1: applying the Finnish-column identifier sanitizer twice produces the
same output as applying it once, for every query string; this holds for both
`NLToSQLConverter._handle_finnish_characters` and
`EnhancedNLToSQLConverter._handle_finnish_characters` (already-backticked
occurrences are left untouched, so the second pass finds nothing to do). -/
theorem handle_finnish_characters_idempotent :
    (∀ q : List Char,
      handleFinnishCharacters (handleFinnishCharacters q) = handleFinnishCharacters q)
  ∧ (∀ q : List Char,
      handleFinnishCharactersEnh (handleFinnishCharactersEnh q) = handleFinnishCharactersEnh q) := by
  constructor
  · intro q
    exact foldl_id_of_noMatch finnishColumnsConv (handleFinnishCharacters q)
      (fun c hc => hasMatch_foldl_self finnishColumnsConv wordColumn_conv q c hc)
  · intro q
    exact foldl_id_of_noMatch_enh finnishColumnsEnh (handleFinnishCharactersEnh q)
      (fun c hc => hasMatch_foldl_self_enh finnishColumnsEnh wordColumn_enh q c hc)

/-! ### Positional characterisation of occurrences -/

/-- The lookbehind context at position `i` of `s` when the scan startet with
flag `b`: at `i = 0` it is `b`, later it is determined by the previous
character. -/
def blockedAtB (s : List Char) (b : Bool) : Nat → Bool
  | 0 => b
  | j + 1 => isWB (s.getD j ' ')

lemma okAfter_drop_of_getD : ∀ (k : Nat) (s : List Char),
    isWB (s.getD k ' ') = true → okAfter (List.drop k s) = false
  | 0, [], h => by simp [List.getD] at h; exact absurd h (by decide)
  | 0, c :: rest, h => by
      simp only [List.getD_cons_zero] at h
      simp [okAfter, h]
  | k + 1, [], h => by simp [List.getD] at h; exact absurd h (by decide)
  | k + 1, c :: rest, h => by
      rw [List.getD_cons_succ] at h
      rw [List.drop_succ_cons]
      exact okAfter_drop_of_getD k rest h

/-- If every occurrence of `col` in `s` sits in blocked context, the scan
finds no match. -/
lemma hasMatchAux_false_of_pos (col : List Char) :
    ∀ (s : List Char) (b : Bool),
      (∀ i, col.isPrefixOf (List.drop i s) = true →
        blockedAtB s b i = true ∨ okAfter (List.drop (i + col.length) s) = false) →
      hasMatchAux col b s = false
  | [], _, _ => rfl
  | c :: rest, b, h => by
      simp only [hasMatchAux, Bool.or_eq_false_iff]
      constructor
      · by_cases hpre : col.isPrefixOf (c :: rest) = true
        · rcases h 0 (by simpa using hpre) with hb | hok
          · unfold matchHere
            simp only [blockedAtB] at hb
            rw [hb]
            simp
          · unfold matchHere
            simp only [Nat.zero_add, List.drop_zero] at hok ⊢
            rw [hok]
            simp
        · unfold matchHere
          rw [Bool.not_eq_true] at hpre
          rw [hpre]
          simp
      · apply hasMatchAux_false_of_pos col rest (isWB c)
        intro i hpre
        have := h (i + 1) (by simpa using hpre)
        rcases this with hb | hok
        · left
          cases i with
          | zero => simpa [blockedAtB] using hb
          | succ j => simpa [blockedAtB, List.getD_cons_succ] using hb
        · right
          simpa [Nat.add_right_comm] using hok

lemma okAfter_append_left : ∀ (w : List Char), w ≠ [] → ∀ (z : List Char),
    okAfter (w ++ z) = okAfter w
  | [], h, _ => absurd rfl h
  | _ :: _, _, _ => rfl

lemma getLastD_append_right : ∀ (x w : List Char), w ≠ [] → ∀ d,
    (x ++ w).getLastD d = w.getLastD d
  | [], _, _, _ => rfl
  | a :: x', w, hw, d => by
      rw [List.cons_append, List.getLastD_cons, getLastD_append_right x' w hw a]
      exact getLastD_irrel w hw a d

/-- The lookbehind context immediately after `u` for a scan that started with
flag `b`. -/
def lastBlk (b : Bool) (u : List Char) : Bool :=
  match u with
  | [] => b
  | _ :: _ => isWB (u.getLastD ' ')

lemma lastBlk_ne_nil (b : Bool) (u : List Char) (h : u ≠ []) :
    lastBlk b u = isWB (u.getLastD ' ') := by
  cases u with
  | nil => exact absurd rfl h
  | cons c u' => rfl

/-- Main boundary lemma: a free whole-word occurrence of `col` (not preceded
and not followed by a word character or backtick) is wrapped in backticks, and
the scan continues independently on both sides. -/
lemma sub_boundary {col : List Char} (hcol : wordColumn col) (v : List Char)
    (hv : okAfter v = true) :
    ∀ (n : Nat) (u : List Char), u.length ≤ n → ∀ b, lastBlk b u = false →
      subColAuxS col b 0 (u ++ col ++ v)
        = subColAuxS col b 0 u ++ '`' :: (col ++ '`' :: subColAuxS col true 0 v) := by
  have htb : isWB (col.getLastD ' ') = true :=
    isWB_of_word (hcol.2 _ (getLastD_mem col ' ' hcol.1))
  have hempty : col.isEmpty = false := by
    cases hc : col with
    | nil => exact absurd hc hcol.1
    | cons a ct => rfl
  intro n
  induction n with
  | zero =>
    intro u hu b hlb
    have hun : u = [] := List.length_eq_zero.mp (Nat.le_zero.mp hu)
    subst hun
    have hb : b = false := hlb
    subst hb
    have hm : matchHere col false (([] : List Char) ++ col ++ v) = true := by
      unfold matchHere
      rw [hempty]
      simp only [List.nil_append]
      rw [isPrefixOf_self_append col v, List.drop_left, hv]
      rfl
    rw [subS_then col false _ hm]
    simp only [List.nil_append, List.drop_left, subColAuxS]
    rw [htb]
  | succ n ih =>
    intro u hu b hlb
    cases hue : u with
    | nil =>
      subst hue
      have hb : b = false := hlb
      subst hb
      have hm : matchHere col false (([] : List Char) ++ col ++ v) = true := by
        unfold matchHere
        rw [hempty]
        simp only [List.nil_append]
        rw [isPrefixOf_self_append col v, List.drop_left, hv]
        rfl
      rw [subS_then col false _ hm]
      simp only [List.nil_append, List.drop_left, subColAuxS]
      rw [htb]
    | cons c u' =>
      subst hue
      have hune : (c :: u') ≠ ([] : List Char) := by simp
      have hlbu : isWB ((c :: u').getLastD ' ') = false := hlb
      by_cases hmL : matchHere col b ((c :: u') ++ col ++ v) = true
      · -- the scan matches at the head: the match lies strictly inside `u`
        obtain ⟨hne, hpreL, hbf, hokL⟩ := matchHere_parts hmL
        subst hbf
        have hupref : (c :: u').isPrefixOf ((c :: u') ++ col ++ v) = true := by
          rw [List.append_assoc]
          exact isPrefixOf_self_append _ _
        by_cases hge : (c :: u').length ≤ col.length
        · exfalso
          have hu_col : (c :: u').isPrefixOf col = true :=
            isPrefixOf_of_le _ col _ hupref hpreL hge
          have hmem : (c :: u').getLastD ' ' ∈ col :=
            mem_of_isPrefixOf _ col hu_col _ (getLastD_mem _ ' ' hune)
          have := isWB_of_word (hcol.2 _ hmem)
          rw [hlbu] at this
          exact Bool.false_ne_true this
        · push_neg at hge
          have hcol_u : col.isPrefixOf (c :: u') = true :=
            isPrefixOf_of_le col (c :: u') _ hpreL hupref (Nat.le_of_lt hge)
          have hw : col ++ List.drop col.length (c :: u') = (c :: u') :=
            isPrefixOf_append_drop col (c :: u') hcol_u
          set w := List.drop col.length (c :: u') with hwdef
          have hwne : w ≠ [] := by
            have : 0 < w.length := by
              rw [hwdef, List.length_drop]
              omega
            exact List.length_pos.mp this
          have hdropL : List.drop col.length ((c :: u') ++ col ++ v) = w ++ col ++ v := by
            conv_lhs => rw [← hw]
            rw [List.append_assoc, List.append_assoc, List.drop_left, ← List.append_assoc]
          have hokw : okAfter w = true := by
            rw [hdropL, okAfter_append_left (w ++ col) (by simp [hwne]) v] at hokL
            rwa [okAfter_append_left w hwne col] at hokL
          have hmu : matchHere col false (c :: u') = true := by
            unfold matchHere
            rw [hempty, hcol_u, ← hwdef, hokw]
            rfl
          have hwlast : isWB (w.getLastD ' ') = false := by
            have : (c :: u').getLastD ' ' = w.getLastD ' ' := by
              conv_lhs => rw [← hw]
              exact getLastD_append_right col w hwne ' '
            rw [← this]
            exact hlbu
          have hwlen : w.length ≤ n := by
            have h1 : 0 < col.length := List.length_pos.mpr hcol.1
            have h2 : w.length = (c :: u').length - col.length := by
              rw [hwdef, List.length_drop]
            omega
          rw [subS_then col false _ hmL, subS_then col false _ hmu, htb, hdropL, ← hwdef,
            ih w hwlen true (by rw [lastBlk_ne_nil true w hwne]; exact hwlast)]
          simp
      · -- no match at the head: both scans step in lockstep
        have hmu : matchHere col b (c :: u') = false := by
          by_cases hmu' : matchHere col b (c :: u') = true
          · exfalso
            obtain ⟨hne, hpreU, hbf, hokU⟩ := matchHere_parts hmu'
            have hw : col ++ List.drop col.length (c :: u') = (c :: u') :=
              isPrefixOf_append_drop col (c :: u') hpreU
            set w := List.drop col.length (c :: u') with hwdef
            cases hwe : w with
            | nil =>
              have hcu : col = (c :: u') := by
                rw [← hw, hwe, List.append_nil]
              have hmem : (c :: u').getLastD ' ' ∈ col := by
                rw [hcu]
                exact getLastD_mem _ ' ' hune
              have := isWB_of_word (hcol.2 _ hmem)
              rw [hlbu] at this
              exact Bool.false_ne_true this
            | cons x w' =>
              apply hmL
              unfold matchHere
              rw [hempty]
              have hpreL : col.isPrefixOf ((c :: u') ++ col ++ v) = true := by
                have hform : (c :: u') ++ col ++ v = col ++ (w ++ col ++ v) := by
                  conv_lhs => rw [← hw]
                  simp
                rw [hform]
                exact isPrefixOf_self_append col _
              have hdropL : List.drop col.length ((c :: u') ++ col ++ v) = w ++ col ++ v := by
                conv_lhs => rw [← hw]
                rw [List.append_assoc, List.append_assoc, List.drop_left, ← List.append_assoc]
              rw [hpreL, hdropL, hwe]
              have : okAfter ((x :: w') ++ col ++ v) = true := by
                rw [okAfter_append_left (x :: w' ++ col) (by simp) v,
                  okAfter_append_left (x :: w') (by simp) col]
                rw [hwe] at hokU
                exact hokU
              rw [this]
              subst hbf
              rfl
          · simpa using hmu'
        have hstep : (c :: u') ++ col ++ v = c :: (u' ++ col ++ v) := by simp
        have hlbu' : lastBlk (isWB c) u' = false := by
          cases hu'e : u' with
          | nil =>
            have : (c :: u').getLastD ' ' = c := by rw [hu'e]; rfl
            rw [← this]
            exact hlbu
          | cons x u'' =>
            show isWB ((x :: u'').getLastD ' ') = false
            have : (c :: u').getLastD ' ' = (x :: u'').getLastD ' ' := by
              rw [hu'e, List.getLastD_cons]
              exact getLastD_irrel _ (by simp) c ' '
            rw [← this]
            exact hlbu
        rw [hstep, subS_else col b c _ (by rw [← hstep]; simpa using hmL),
          subS_else col b c u' (by simpa using hmu),
          ih u' (by simp only [List.length_cons] at hu; omega) (isWB c) hlbu']
        simp

/-- C2: one sanitizer pass rewrites exactly the whole-word occurrences that
are not already delimited.  First conjunct: if every occurrence of the
protected name in the query is immediately preceded or followed by a quoting
character or a word character, the pass leaves the query unchanged.  Second
conjunct: an occurrence whose left context is not a quote/word character and
whose right context is not a quote/word character is wrapped in backticks,
with the rest of the query processed independently on either side. -/
theorem sanitizer_rewrites_free_occurrences (col : List Char) (hcol : wordColumn col) :
    (∀ s : List Char,
      (∀ i < s.length, col.isPrefixOf (List.drop i s) = true →
        blockedAtB s false i = true ∨ isWB (s.getD (i + col.length) ' ') = true) →
      subCol col s = s)
  ∧ (∀ u v : List Char, isWB (u.getLastD ' ') = false → okAfter v = true →
      subCol col (u ++ col ++ v)
        = subCol col u ++ '`' :: (col ++ '`' :: subColAuxS col true 0 v)) := by
  constructor
  · intro s h
    apply sub_id_of_noMatch
    apply hasMatchAux_false_of_pos
    intro i hpre
    by_cases hi : i < s.length
    · rcases h i hi hpre with hb | hafter
      · exact Or.inl hb
      · exact Or.inr (okAfter_drop_of_getD _ s hafter)
    · exfalso
      push_neg at hi
      rw [List.drop_eq_nil_of_le hi, isPrefixOf_nil_false col hcol.1] at hpre
      exact Bool.false_ne_true hpre
  · intro u v hu hv
    have hlb : lastBlk false u = false := by
      cases u with
      | nil => rfl
      | cons c u' => exact hu
    exact sub_boundary hcol v hv u.length u le_rfl false hlb

/-- Witness for C2 at concrete inputs: the free occurrence in
`SELECT Nettokertymä FROM t` is wrapped, and a fully backtick-delimited
occurrence is left unchanged. -/
theorem sanitizer_rewrites_free_occurrences_witness :
    subCol "Nettokertymä".data ("SELECT ".data ++ "Nettokertymä".data ++ " FROM t".data)
      = subCol "Nettokertymä".data "SELECT ".data ++ '`' ::
          ("Nettokertymä".data ++ '`' :: subColAuxS "Nettokertymä".data true 0 " FROM t".data)
  ∧ subCol "Käytettävissä".data "x `Käytettävissä` y".data = "x `Käytettävissä` y".data :=
  ⟨(sanitizer_rewrites_free_occurrences "Nettokertymä".data (by decide)).2
      "SELECT ".data " FROM t".data (by decide) (by decide),
   (sanitizer_rewrites_free_occurrences "Käytettävissä".data (by decide)).1
      "x `Käytettävissä` y".data (by decide)⟩

/-- C3: a protected name that occurs only as a proper substring of a longer
identifier (always immediately adjacent to a word character) is never
rewritten: the sanitizer pass returns the query unchanged, with the longer
identifier intact. -/
theorem sanitizer_word_boundary_safety (col s : List Char) (hcol : wordColumn col)
    (h : ∀ i < s.length, col.isPrefixOf (List.drop i s) = true →
        (0 < i ∧ isWordChar (s.getD (i - 1) ' ') = true) ∨
        isWordChar (s.getD (i + col.length) ' ') = true) :
    subCol col s = s := by
  apply sub_id_of_noMatch
  apply hasMatchAux_false_of_pos
  intro i hpre
  by_cases hi : i < s.length
  · rcases h i hi hpre with ⟨hpos, hword⟩ | hword
    · left
      cases i with
      | zero => omega
      | succ j =>
        show isWB (s.getD j ' ') = true
        exact isWB_of_word (by simpa using hword)
    · exact Or.inr (okAfter_drop_of_getD _ s (isWB_of_word hword))
  · exfalso
    push_neg at hi
    rw [List.drop_eq_nil_of_le hi, isPrefixOf_nil_false col hcol.1] at hpre
    exact Bool.false_ne_true hpre

/-- Witness for C3: protected name `Budget`, query containing `SubBudgetX`:
the sanitizer does not alter it. -/
theorem sanitizer_word_boundary_safety_witness :
    subCol "Budget".data "SELECT SubBudgetX FROM t".data
      = "SELECT SubBudgetX FROM t".data :=
  sanitizer_word_boundary_safety "Budget".data "SELECT SubBudgetX FROM t".data
    (by decide) (by decide)

/-! ### Response-parser regular expressions

Executable models of the `re.search` calls of
`NLToSQLConverter._extract_sql_and_explanation` (identical code in
`LLMInterface._extract_sql_and_explanation`) and
`LLMInterface.extract_sql_from_response`, with Python's leftmost search,
greedy `\s+`/`\s*`, lazy `(.*?)` backtracking order and `$` (end of string or
just before a trailing final newline; `re.DOTALL` makes `.` match newlines). -/

/-- Python `str.strip()`. -/
def stripList (s : List Char) : List Char :=
  ((s.dropWhile isSpaceChar).reverse.dropWhile isSpaceChar).reverse

/-- Case-insensitive literal prefix test (`re.IGNORECASE`). -/
def isPrefixCi : List Char → List Char → Bool
  | [], _ => true
  | _ :: _, [] => false
  | p :: ps, c :: cs => (Char.toLower c == Char.toLower p) && isPrefixCi ps cs

/-- Substring occurrence test. -/
def containsSub (pat : List Char) : List Char → Bool
  | [] => pat.isPrefixOf []
  | c :: rest => pat.isPrefixOf (c :: rest) || containsSub pat rest

/-- Python `$` (no `re.MULTILINE`): end of string, or just before a final
trailing newline. -/
def dollarAt : List Char → Bool
  | [] => true
  | ['\n'] => true
  | _ => false

/-- Lazy group `(.*?)` followed by a continuation test: shortest capture
first. -/
def lazyCapture (p : List Char → Bool) : List Char → Option (List Char)
  | [] => if p [] then some [] else none
  | c :: rest =>
    if p (c :: rest) then some []
    else (lazyCapture p rest).map (fun g => c :: g)

/-- Greedy `\s+` followed by an option-valued continuation: longest whitespace
run first, backing off on failure, at least one whitespace character. -/
def greedyWsPlusThen (k : List Char → Option (List Char)) : List Char → Option (List Char)
  | [] => none
  | c :: rest =>
    if isSpaceChar c then (greedyWsPlusThen k rest) <|> k rest
    else none

/-- Greedy `\s*` followed by an option-valued continuation: longest whitespace
run first, down to the empty run. -/
def greedyWsStarThen (k : List Char → Option (List Char)) : List Char → Option (List Char)
  | [] => k []
  | c :: rest =>
    if isSpaceChar c then (greedyWsStarThen k rest) <|> k (c :: rest)
    else k (c :: rest)

/-- Boolean `\s+ p`: at least one whitespace character, then `p` somewhere in
the run (pure existence, capture-free). -/
def wsPlusThenB (p : List Char → Bool) : List Char → Bool
  | [] => false
  | c :: rest => isSpaceChar c && (p rest || wsPlusThenB p rest)

/-- Boolean `\s* p`. -/
def wsStarThenB (p : List Char → Bool) : List Char → Bool
  | [] => p []
  | c :: rest => p (c :: rest) || (isSpaceChar c && wsStarThenB p rest)

/-- Boolean `.+? p` under `re.DOTALL`: at least one consumed character, then
`p` at some later point. -/
def existsPointAfter (p : List Char → Bool) : List Char → Bool
  | [] => false
  | _ :: rest => p rest || existsPointAfter p rest

/-- `re.search` over all start positions, leftmost position first. -/
def searchLeftmost (mA : List Char → Option (List Char)) : List Char → Option (List Char)
  | [] => mA []
  | c :: rest => (mA (c :: rest)) <|> searchLeftmost mA rest

/-- Match of `` ```sql\s+(.*?)\s+``` `` at the current position (the converter
variant, `\s+` on both sides of the group). -/
def matchFencedSqlPlusAt (s : List Char) : Option (List Char) :=
  if "```sql".data.isPrefixOf s then
    greedyWsPlusThen (lazyCapture (wsPlusThenB (fun r => "```".data.isPrefixOf r)))
      (List.drop 6 s)
  else none

def findFencedSqlPlus (s : List Char) : Option (List Char) :=
  searchLeftmost matchFencedSqlPlusAt s

/-- Match of `Explanation:\s+(.*?)(?:\n\n|$)` at the current position. -/
def matchExplanationAt (s : List Char) : Option (List Char) :=
  if "Explanation:".data.isPrefixOf s then
    greedyWsPlusThen
      (lazyCapture (fun r => "\n\n".data.isPrefixOf r || dollarAt r))
      (List.drop 12 s)
  else none

def findExplanation (s : List Char) : Option (List Char) :=
  searchLeftmost matchExplanationAt s

/-- `NLToSQLConverter._extract_sql_and_explanation` (identical code also in
`LLMInterface._extract_sql_and_explanation`): SQL from the first
`` ```sql ... ``` `` fence, explanation from the first `Explanation:` label,
with the fixed fallback text when the label is absent. -/
def extractSqlAndExplanationConv (s : List Char) : Option (List Char) × List Char :=
  ((findFencedSqlPlus s).map stripList,
   match findExplanation s with
   | some g => stripList g
   | none => "No explanation provided.".data)

/-- Match of `` ```sql\s*(.*?)\s*``` `` at the current position (the
`extract_sql_from_response` variant, `\s*`). -/
def matchFencedSqlStarAt (s : List Char) : Option (List Char) :=
  if "```sql".data.isPrefixOf s then
    greedyWsStarThen (lazyCapture (wsStarThenB (fun r => "```".data.isPrefixOf r)))
      (List.drop 6 s)
  else none

/-- Inner part of `` ```\s*(SELECT.*?)\s*``` ``: a case-insensitive `SELECT`,
then a lazy tail, the capture including the keyword. -/
def selectLazyCap (r : List Char) : Option (List Char) :=
  if isPrefixCi "select".data r then
    (lazyCapture (wsStarThenB (fun r' => "```".data.isPrefixOf r')) (List.drop 6 r)).map
      (fun g => List.take 6 r ++ g)
  else none

/-- Match of `` ```\s*(SELECT.*?)\s*``` `` (`re.IGNORECASE`). -/
def matchFencedSelectAt (s : List Char) : Option (List Char) :=
  if "```".data.isPrefixOf s then
    greedyWsStarThen selectLazyCap (List.drop 3 s)
  else none

/-- The clause-terminating alternation `(?:WHERE|GROUP BY|ORDER BY|LIMIT|$)`
of the bare-SQL fallback pattern. -/
def termHere (r : List Char) : Bool :=
  isPrefixCi "where".data r || isPrefixCi "group by".data r ||
  isPrefixCi "order by".data r || isPrefixCi "limit".data r || dollarAt r

/-- `FROM\s+.+?(?:WHERE|GROUP BY|ORDER BY|LIMIT|$)` at the current position. -/
def bareFromPart (r : List Char) : Bool :=
  isPrefixCi "from".data r && wsPlusThenB (existsPointAfter termHere) (List.drop 4 r)

/-- Whether `(SELECT\s+.+?FROM\s+.+?(?:WHERE|GROUP BY|ORDER BY|LIMIT|$).*)`
matches at the current position.  Because the final `.*` is greedy under
`re.DOTALL` and the capture group encloses the whole pattern, the captured
text is always the entire rest of the string, so only match existence is
needed per position. -/
def matchBareSelectAt (s : List Char) : Bool :=
  isPrefixCi "select".data s && wsPlusThenB (existsPointAfter bareFromPart) (List.drop 6 s)

/-- Leftmost bare-SQL fallback match; returns the matching suffix (= the
captured group before trimming). -/
def findBareSelect : List Char → Option (List Char)
  | [] => none
  | c :: rest => if matchBareSelectAt (c :: rest) then some (c :: rest) else findBareSelect rest

/-- `LLMInterface.extract_sql_from_response` (text-extraction branch): three
strategies tried strictly in order. -/
def extractSqlFromResponse (content : List Char) : Option (List Char) :=
  match searchLeftmost matchFencedSqlStarAt content with
  | some g => some (stripList g)
  | none =>
    match searchLeftmost matchFencedSelectAt content with
    | some g => some (stripList g)
    | none =>
      match findBareSelect content with
      | some tail => some (stripList tail)
      | none => none

example : extractSqlAndExplanationConv
    "```sql\nSELECT 1\n```\nExplanation: uses table".data
    = (some "SELECT 1".data, "uses table".data) := by decide

example : extractSqlAndExplanationConv "Explanation: hi".data = (none, "hi".data) := by decide

example : extractSqlFromResponse "```sql\nSELECT 1\n```".data = some "SELECT 1".data := by
  decide

example : extractSqlFromResponse "```\nselect 2 from t\n```".data
    = some "select 2 from t".data := by decide

example : extractSqlFromResponse "Here:\nSELECT a FROM b".data
    = some "SELECT a FROM b".data := by decide

lemma isPrefixOf_append_split : ∀ (x y s : List Char),
    (x ++ y).isPrefixOf s = true → x.isPrefixOf s = true
  | [], _, s, _ => isPrefixOf_nil_left s
  | a :: x', y, [], h => by simp [List.isPrefixOf] at h
  | a :: x', y, c :: s', h => by
      simp only [List.cons_append, List.isPrefixOf, Bool.and_eq_true, beq_iff_eq] at h ⊢
      exact ⟨h.1, isPrefixOf_append_split x' y s' h.2⟩

lemma containsSub_false_all (pat : List Char) :
    ∀ (s : List Char), containsSub pat s = false →
      ∀ i, pat.isPrefixOf (List.drop i s) = false
  | [], h, i => by
      rw [List.drop_nil]
      simpa [containsSub] using h
  | c :: rest, h, i => by
      simp only [containsSub, Bool.or_eq_false_iff] at h
      cases i with
      | zero => exact h.1
      | succ j =>
        rw [List.drop_succ_cons]
        exact containsSub_false_all pat rest h.2 j

lemma searchLeftmost_none (mA : List Char → Option (List Char)) :
    ∀ (s : List Char), (∀ i, mA (List.drop i s) = none) → searchLeftmost mA s = none
  | [], h => h 0
  | c :: rest, h => by
      show (mA (c :: rest) <|> searchLeftmost mA rest) = none
      have h0 := h 0
      rw [List.drop_zero] at h0
      rw [h0]
      simp only [Option.none_orElse]
      exact searchLeftmost_none mA rest (fun i => by
        have := h (i + 1)
        rwa [List.drop_succ_cons] at this)

lemma fence_marker_split : "```sql".data = "```".data ++ "sql".data := by decide

lemma matchFencedSqlPlusAt_none {s : List Char} (h : "```".data.isPrefixOf s = false) :
    matchFencedSqlPlusAt s = none := by
  unfold matchFencedSqlPlusAt
  rw [if_neg]
  intro hc
  rw [fence_marker_split] at hc
  have := isPrefixOf_append_split _ _ s hc
  rw [h] at this
  exact Bool.false_ne_true this

lemma matchFencedSqlStarAt_none {s : List Char} (h : "```".data.isPrefixOf s = false) :
    matchFencedSqlStarAt s = none := by
  unfold matchFencedSqlStarAt
  rw [if_neg]
  intro hc
  rw [fence_marker_split] at hc
  have := isPrefixOf_append_split _ _ s hc
  rw [h] at this
  exact Bool.false_ne_true this

lemma matchFencedSelectAt_none {s : List Char} (h : "```".data.isPrefixOf s = false) :
    matchFencedSelectAt s = none := by
  unfold matchFencedSelectAt
  rw [if_neg]
  intro hc
  rw [h] at hc
  exact Bool.false_ne_true hc

lemma matchExplanationAt_none {s : List Char} (h : "Explanation:".data.isPrefixOf s = false) :
    matchExplanationAt s = none := by
  unfold matchExplanationAt
  rw [if_neg]
  intro hc
  rw [h] at hc
  exact Bool.false_ne_true hc

lemma findFencedSqlPlus_none {s : List Char} (h : containsSub "```".data s = false) :
    findFencedSqlPlus s = none :=
  searchLeftmost_none _ s fun i =>
    matchFencedSqlPlusAt_none (containsSub_false_all _ s h i)

lemma findExplanation_none {s : List Char} (h : containsSub "Explanation:".data s = false) :
    findExplanation s = none :=
  searchLeftmost_none _ s fun i =>
    matchExplanationAt_none (containsSub_false_all _ s h i)

lemma findBareSelect_isSome :
    ∀ (s : List Char), (∃ i, matchBareSelectAt (List.drop i s) = true) →
      ∃ t, findBareSelect s = some t
  | [], h => by
      obtain ⟨i, hi⟩ := h
      rw [List.drop_nil] at hi
      simp [matchBareSelectAt, isPrefixCi] at hi
  | c :: rest, h => by
      by_cases hm : matchBareSelectAt (c :: rest) = true
      · exact ⟨c :: rest, by simp [findBareSelect, hm]⟩
      · obtain ⟨i, hi⟩ := h
        cases i with
        | zero => exact absurd (by simpa using hi) hm
        | succ j =>
          rw [List.drop_succ_cons] at hi
          obtain ⟨t, ht⟩ := findBareSelect_isSome rest ⟨j, hi⟩
          exact ⟨t, by simp [findBareSelect, hm, ht]⟩

/-- C5 counterexample: the response `"Explanation: hi"` contains no
`` ```sql `` fence and no query keyword, yet the parser returns the extracted
label text, not the placeholder `"No explanation provided."`. -/
theorem extract_explanation_not_placeholder :
    containsSub "```sql".data "Explanation: hi".data = false
  ∧ containsSub "select".data "Explanation: hi".data = false
  ∧ extractSqlAndExplanationConv "Explanation: hi".data = (none, "hi".data)
  ∧ ¬ (extractSqlAndExplanationConv "Explanation: hi".data
        = (none, "No explanation provided.".data)) := by decide

/-- C5 (amended): for a response in which the `` ```sql `` marker does not
occur, the parser returns `query_text` absent; the explanation is the
placeholder `"No explanation provided."` exactly when no `Explanation:` label
occurs (otherwise it is the labelled text), and the parser is a total
function (it never raises). -/
theorem extract_sql_none_of_no_fence (s : List Char)
    (h : containsSub "```sql".data s = false) :
    (extractSqlAndExplanationConv s).1 = none
  ∧ (containsSub "Explanation:".data s = false →
      (extractSqlAndExplanationConv s).2 = "No explanation provided.".data) := by
  constructor
  · have hnone : findFencedSqlPlus s = none :=
      searchLeftmost_none _ s fun i => by
        unfold matchFencedSqlPlusAt
        rw [if_neg]
        intro hc
        have := containsSub_false_all _ s h i
        rw [this] at hc
        exact Bool.false_ne_true hc
    show (findFencedSqlPlus s).map stripList = none
    rw [hnone]
    rfl
  · intro he
    show (match findExplanation s with
          | some g => stripList g
          | none => "No explanation provided.".data) = "No explanation provided.".data
    rw [findExplanation_none he]

/-- Witness for C5 (amended) at the concrete keyword-free response
`"no sql here"`. -/
theorem extract_sql_none_of_no_fence_witness :
    (extractSqlAndExplanationConv "no sql here".data).1 = none
  ∧ (extractSqlAndExplanationConv "no sql here".data).2 = "No explanation provided.".data :=
  ⟨(extract_sql_none_of_no_fence "no sql here".data (by decide)).1,
   (extract_sql_none_of_no_fence "no sql here".data (by decide)).2 (by decide)⟩

/-- C6 counterexample: with no fenced block and a bare
`SELECT ... FROM ... WHERE ...` clause followed by prose, the fallback returns
the whole remaining text, not the clause (neither cut before nor after the
clause-terminating keyword, nor at the end of the statement). -/
theorem extract_fallback_returns_tail :
    extractSqlFromResponse "Use SELECT a FROM b WHERE x = 1. Enjoy!".data
      = some "SELECT a FROM b WHERE x = 1. Enjoy!".data
  ∧ ¬ (extractSqlFromResponse "Use SELECT a FROM b WHERE x = 1. Enjoy!".data
        = some "SELECT a FROM b".data)
  ∧ ¬ (extractSqlFromResponse "Use SELECT a FROM b WHERE x = 1. Enjoy!".data
        = some "SELECT a FROM b WHERE".data)
  ∧ ¬ (extractSqlFromResponse "Use SELECT a FROM b WHERE x = 1. Enjoy!".data
        = some "SELECT a FROM b WHERE x = 1.".data) := by decide

/-- C6 (amended): for a response without any `` ``` `` fence in which the bare
`SELECT ... FROM ...` pattern matches somewhere, the first two strategies
fail, and the parser returns the third strategy's result: the suffix starting
at the leftmost match of the pattern, trimmed — i.e. from the leading keyword
to the end of the text (the clause-terminating keywords act only as a
validity check), rather than failure. -/
theorem extract_sql_fallback_bare_select (s : List Char)
    (hf : containsSub "```".data s = false)
    (hb : ∃ i, matchBareSelectAt (List.drop i s) = true) :
    extractSqlFromResponse s = (findBareSelect s).map stripList
  ∧ extractSqlFromResponse s ≠ none := by
  have h1 : searchLeftmost matchFencedSqlStarAt s = none :=
    searchLeftmost_none _ s fun i =>
      matchFencedSqlStarAt_none (containsSub_false_all _ s hf i)
  have h2 : searchLeftmost matchFencedSelectAt s = none :=
    searchLeftmost_none _ s fun i =>
      matchFencedSelectAt_none (containsSub_false_all _ s hf i)
  obtain ⟨t, ht⟩ := findBareSelect_isSome s hb
  constructor
  · unfold extractSqlFromResponse
    rw [h1, h2, ht]
    rfl
  · unfold extractSqlFromResponse
    rw [h1, h2, ht]
    simp

/-- Witness for C6 (amended) at a concrete fence-free response containing a
bare SELECT clause. -/
theorem extract_sql_fallback_bare_select_witness :
    extractSqlFromResponse "The query is SELECT a FROM b".data
      = (findBareSelect "The query is SELECT a FROM b".data).map stripList
  ∧ extractSqlFromResponse "The query is SELECT a FROM b".data ≠ none :=
  extract_sql_fallback_bare_select "The query is SELECT a FROM b".data
    (by decide) ⟨13, by decide⟩

/-! ### `NLToSQLConverter.generate_sql`, `_build_prompt`, `_clean_sql`

The model invocation is the single external-I/O point: its outcome is passed
in as an `Except` value, `.error` standing for the exception the SDK call
raised.  Python exception classes relevant to the handlers are modelled by
`PyError`. -/

structure SchemaField where
  name : String
  ftype : String
  description : String
deriving DecidableEq

inductive PyError where
  | nameError (msg : String)
  | googleAPIError (msg : String)
  | attributeError (msg : String)
  | otherError (msg : String)
deriving DecidableEq

/-- Python truthiness of an optional integer (`None` and `0` are falsy). -/
def truthyInt : Option Int → Bool
  | some v => v != 0
  | none => false

/-- One schema line of `_build_prompt`. -/
def schemaDescLine (f : SchemaField) : String :=
  "- `" ++ f.name ++ "` (" ++ f.ftype ++ "): " ++ f.description

/-- The `filter_instructions` list of `_build_prompt`. -/
def filterInstructions (yearStart yearEnd : Option Int) : List String :=
  if truthyInt yearStart && truthyInt yearEnd then
    if yearStart = yearEnd then
      ["Data must be filtered for the year " ++ toString (yearStart.getD 0) ++ "."]
    else
      ["Data must cover the year range from " ++ toString (yearStart.getD 0) ++ " to "
        ++ toString (yearEnd.getD 0) ++ " inclusive."]
  else []

/-- The `filter_prompt_segment` string of `_build_prompt`. -/
def filterPromptSegment (instrs : List String) : String :=
  if instrs = [] then ""
  else
    "\nIMPORTANT: Strictly adhere to the following pre-defined filters from the user interface when generating the SQL, in addition to the user's question:\n"
      ++ String.join (instrs.map (fun i => "- " ++ i ++ "\n"))

/-- The `available_years_info` string of `_build_prompt`. -/
def availableYearsInfo (availableYears : List Int) : String :=
  match availableYears with
  | [] => ""
  | y :: ys =>
    "\nCONTEXT: The data is available ONLY for the years " ++ toString (ys.foldl min y)
      ++ " through " ++ toString (ys.foldl max y)
      ++ " (inclusive). Do not generate SQL for years outside this range unless the user explicitly asks for unavailable years (in which case, still query only the available range or return an appropriate empty result query)."

/-- `NLToSQLConverter._build_prompt`.  The final f-string interpolates
`min_year` and `max_year`; those locals are assigned only inside the
`if available_years:` block, so with an empty `available_years` Python raises
`NameError` when the f-string is evaluated.  (Leading indentation whitespace
of the Python multi-line f-string is elided.) -/
def buildPrompt (tableName : String) (schema : List SchemaField)
    (yearStart yearEnd : Option Int) (availableYears : List Int)
    (naturalLanguageQuery : String) : Except PyError String :=
  let schemaDesc := String.intercalate "\n" (schema.map schemaDescLine)
  let seg := filterPromptSegment (filterInstructions yearStart yearEnd)
  let yearsInfo := availableYearsInfo availableYears
  match availableYears with
  | [] => .error (.nameError "name 'min_year' is not defined")
  | y :: ys =>
    .ok ("\nYou are an expert SQL generator for a financial analysis system using Google BigQuery. \nYour task is to convert natural language questions about Finnish government finances into valid BigQuery SQL queries.\n\nDATABASE SCHEMA:\nTable Name (MUST be used fully qualified with backticks): `"
      ++ tableName ++ "` \n\nFields:\n" ++ schemaDesc
      ++ "\n\nKey information about the data:\n- The data contains Finnish government budget and accounting information.\n- `Vuosi` is the year (integer) and `Kk` is the month (integer).\n- `Ha_Tunnus` is the administrative branch code (string, e.g., '26').\n- Financial values include `Alkuperäinen_talousarvio`, `Voimassaoleva_talousarvio`, `Nettokertymä`.\n- The budget structure hierarchy uses `PaaluokkaOsasto`, `Luku`, `Momentti`.\n\n"
      ++ yearsInfo ++ " # << ADDED AVAILABLE YEARS CONTEXT\n\n"
      ++ seg ++ " # << INSERT UI FILTER INSTRUCTIONS HERE\n\nIMPORTANT INSTRUCTIONS:\n1. ALWAYS use the fully qualified table name WITH backticks: `"
      ++ tableName ++ "` in the FROM clause.\n2. Use ONLY columns specified in the schema above. Ensure column names with special characters (like Nettokertymä) are enclosed in backticks if needed (though BigQuery standard SQL often doesn't require it unless the name is a reserved keyword or has spaces/invalid chars). Assume standard SQL quoting rules apply.\n3. Adhere strictly to the available data years ("
      ++ toString (ys.foldl min y) ++ "-" ++ toString (ys.foldl max y)
      ++ " if available) AND any active filters from the user interface. If the user asks for a year outside the available range (like 2020), generate a query that correctly returns no rows for that year (e.g., by still including it in the WHERE clause but knowing the data isn't there) or adjust the query to only use available years if appropriate for the question.\n4. Generate ONLY the SQL query enclosed between ```sql and ``` tags, followed by a brief explanation starting with \"Explanation:\".\n\nExample SQL for the table `"
      ++ tableName ++ "`:\nQuestion: What was the military budget for 2023?\nSQL: \n```sql\nSELECT SUM(`Voimassaoleva_talousarvio`) as current_budget FROM `"
      ++ tableName ++ "` WHERE Vuosi = 2023 AND Ha_Tunnus = '26'\n```\nExplanation: Calculates the sum of the current budget for the Ministry of Defense (Ha_Tunnus '26') specifically for the year 2023.\n\nNow, please convert the following question to a BigQuery SQL query adhering to ALL instructions:\n\nQuestion: "
      ++ naturalLanguageQuery ++ "\n")

/-- Python `str.replace(pat, rep)`: replace every non-overlapping occurrence,
scanning left to right (`skip` consumes the rest of a replaced occurrence). -/
def replaceAllS (pat rep : List Char) : Nat → List Char → List Char
  | _, [] => []
  | 0, c :: rest =>
    if pat ≠ [] ∧ pat.isPrefixOf (c :: rest) = true then
      rep ++ replaceAllS pat rep (pat.length - 1) rest
    else
      c :: replaceAllS pat rep 0 rest
  | skip + 1, _ :: rest => replaceAllS pat rep skip rest

def replaceAll (pat rep s : List Char) : List Char := replaceAllS pat rep 0 s

/-- `NLToSQLConverter._clean_sql`: rewrite the LLM's short backticked table
reference to the fully qualified one, then backtick the Finnish columns. -/
def cleanSql (tableName : String) (sqlQuery : List Char) : List Char :=
  let fqtnClean := tableName.data.filter (fun c => c != '`')
  let shortTable := (fqtnClean.reverse.takeWhile (fun c => c != '.')).reverse
  let llmFrag := "FROM `".data ++ shortTable ++ ['`']
  let correct := "FROM `".data ++ fqtnClean ++ ['`']
  let s1 := if containsSub llmFrag sqlQuery = true then replaceAll llmFrag correct sqlQuery
            else sqlQuery
  handleFinnishCharacters s1

/-- `NLToSQLConverter.generate_sql`.  `_build_prompt` is called before the
`try` block, so an exception it raises propagates out of `generate_sql`
(outer `.error`); exceptions arising from the model invocation are caught by
the three `except` clauses and turned into failure tuples. -/
def generateSql (tableName : String) (schema : List SchemaField)
    (yearStart yearEnd : Option Int) (availableYears : List Int)
    (naturalLanguageQuery : String) (modelResponse : Except PyError String) :
    Except PyError (Option String × String) :=
  if tableName = "" ∨ schema = [] then
    .ok (none, "Table information not set. Call set_table_info() first.")
  else
    match buildPrompt tableName schema yearStart yearEnd availableYears naturalLanguageQuery with
    | .error e => .error e
    | .ok _prompt =>
      match modelResponse with
      | .error (.googleAPIError m) =>
        .ok (none, "Error generating SQL: Google API Error - " ++ m)
      | .error (.attributeError m) =>
        .ok (none, "Error generating SQL: SDK Error - " ++ m)
      | .error (.nameError m) =>
        .ok (none, "Error generating SQL: Unexpected error - " ++ m)
      | .error (.otherError m) =>
        .ok (none, "Error generating SQL: Unexpected error - " ++ m)
      | .ok text =>
        let res := extractSqlAndExplanationConv text.data
        match res.1 with
        | some q => .ok (some ⟨cleanSql tableName q⟩, ⟨res.2⟩)
        | none => .ok (none, ⟨res.2⟩)

/-- C4 (code bug): with the table name set and a non-empty schema but an
empty `available_years` session list (its default when unset), prompt
construction raises `NameError` (line 155 of `nl_to_sql.py` interpolates
`min_year`/`max_year`, which are only assigned when `available_years` is
non-empty) and the exception escapes `generate_sql` — the `Idle → PromptBuilt`
transition is not failure-free.  With an empty schema the code does return the
claimed failure tuple instead of raising. -/
theorem generate_sql_prompt_build_raises :
    generateSql "p.d.t" [⟨"Vuosi", "INTEGER", "Year"⟩] none none [] "total budget"
        (.ok "```sql\nSELECT 1\n```")
      = .error (.nameError "name 'min_year' is not defined")
  ∧ generateSql "p.d.t" [] none none [2022] "total budget" (.ok "x")
      = .ok (none, "Table information not set. Call set_table_info() first.") :=
  ⟨rfl, rfl⟩

/-- C9: whenever the model invocation fails with a transport/API error
(`GoogleAPIError`), `generate_sql` returns a failure tuple — `query_text`
absent, explanation naming the error kind — and no exception escapes
(`.ok` result). -/
theorem generate_sql_api_error_returns_failure
    (tableName : String) (schema : List SchemaField) (ys ye : Option Int)
    (availableYears : List Int) (q m : String)
    (ht : tableName ≠ "") (hs : schema ≠ []) (ha : availableYears ≠ []) :
    generateSql tableName schema ys ye availableYears q (.error (.googleAPIError m))
      = .ok (none, "Error generating SQL: Google API Error - " ++ m) := by
  unfold generateSql
  rw [if_neg (by push_neg; exact ⟨ht, hs⟩)]
  cases availableYears with
  | nil => exact absurd rfl ha
  | cons y ys' => rfl

/-- Witness for C9 at a concrete converter state and API failure. -/
theorem generate_sql_api_error_witness :
    generateSql "p.d.t" [⟨"Vuosi", "INTEGER", "Year"⟩] none none [2022] "q"
        (.error (.googleAPIError "503 Service Unavailable"))
      = .ok (none, "Error generating SQL: Google API Error - 503 Service Unavailable") :=
  generate_sql_api_error_returns_failure "p.d.t" [⟨"Vuosi", "INTEGER", "Year"⟩]
    none none [2022] "q" "503 Service Unavailable"
    (by decide) (by simp) (by simp)

/-! ### `CachedQuerySystem` (`src/utils/cached_query_system.py`)

`time.time()` is passed in explicitly as the current time (in seconds); the
`context_cache` dict is a function from schema hashes to optional entries. -/

structure CacheEntry where
  context : String
  timestamp : Int

structure CachedQuerySystem where
  contextCache : String → Option CacheEntry
  cacheTtl : Int

/-- `CachedQuerySystem.__init__` (default `ttl=3600`). -/
def initCachedQuerySystem (ttl : Int := 3600) : CachedQuerySystem :=
  { contextCache := fun _ => none, cacheTtl := ttl }

/-- `CachedQuerySystem.get_cached_context` at current time `now`. -/
def getCachedContext (sys : CachedQuerySystem) (schemaHash : String) (now : Int) :
    Option String :=
  match sys.contextCache schemaHash with
  | some cached => if cached.timestamp > now - sys.cacheTtl then some cached.context else none
  | none => none

/-- `CachedQuerySystem.cache_context` at current time `now`. -/
def cacheContext (sys : CachedQuerySystem) (schemaHash : String) (context : String)
    (now : Int) : CachedQuerySystem :=
  { sys with
    contextCache := fun k =>
      if k = schemaHash then some { context := context, timestamp := now }
      else sys.contextCache k }

/-- C7: after `cache_context(k, v)` at time `t`, an immediate
`get_cached_context(k)` (same time, positive TTL) returns `v`; once the
elapsed time exceeds the TTL the entry is reported absent; the constructor's
default TTL is 3600 seconds. -/
theorem cache_ttl_roundtrip (sys : CachedQuerySystem) (k v : String) (t t' : Int)
    (h : 0 < sys.cacheTtl) :
    getCachedContext (cacheContext sys k v t) k t = some v
  ∧ (sys.cacheTtl < t' - t → getCachedContext (cacheContext sys k v t) k t' = none)
  ∧ (initCachedQuerySystem).cacheTtl = 3600 := by
  have hupd : (cacheContext sys k v t).contextCache k
      = some { context := v, timestamp := t } := by
    unfold cacheContext
    simp
  refine ⟨?_, fun hexp => ?_, rfl⟩
  · unfold getCachedContext
    rw [hupd]
    show (if t > t - sys.cacheTtl then some v else none) = some v
    rw [if_pos (by omega)]
  · unfold getCachedContext
    rw [hupd]
    show (if t > t' - sys.cacheTtl then some v else none) = none
    rw [if_neg (by omega)]

/-- Witness for C7 at a concrete cache state, key and times. -/
theorem cache_ttl_roundtrip_witness :
    getCachedContext (cacheContext initCachedQuerySystem "h" "ctx" 0) "h" 0 = some "ctx"
  ∧ getCachedContext (cacheContext initCachedQuerySystem "h" "ctx" 0) "h" 4000 = none :=
  ⟨(cache_ttl_roundtrip initCachedQuerySystem "h" "ctx" 0 4000 (by decide)).1,
   (cache_ttl_roundtrip initCachedQuerySystem "h" "ctx" 0 4000 (by decide)).2.1 (by decide)⟩

/-! ### `FinancialDataVisualizer.detect_visualization_type`
(`src/utils/visualization.py`)

A result table is embedded by its row count and its columns, each carrying
its name and whether its pandas dtype is numeric (`select_dtypes 'number'`). -/

structure DFColumn where
  name : String
  numeric : Bool
deriving DecidableEq

structure DataFrame where
  rows : Nat
  columns : List DFColumn
deriving DecidableEq

/-- Python `str.lower()`, per character. -/
def strLower (s : String) : String := ⟨s.data.map Char.toLower⟩

def timeColumnNames : List String := ["year", "vuosi", "month", "kk", "quarter"]

def categoryColumnNames : List String :=
  ["hallinnonala", "ministry", "administrative_branch", "paaluokka", "momentti", "luku"]

/-- `FinancialDataVisualizer.detect_visualization_type`. -/
def detectVisualizationType (df : DataFrame) : String :=
  let numericColumns := df.columns.filter (fun c => c.numeric)
  let timeColumns := df.columns.filter (fun c => timeColumnNames.contains (strLower c.name))
  let categoryColumns :=
    df.columns.filter (fun c => categoryColumnNames.contains (strLower c.name))
  if df.rows = 1 ∧ 1 ≤ numericColumns.length then "single_value"
  else if df.rows = 1 ∧ 1 < numericColumns.length then "bar"
  else if 1 ≤ timeColumns.length ∧ 1 ≤ numericColumns.length then
    if 1 < df.rows then
      if 2 < numericColumns.length then "time_bar"
      else if 1 < numericColumns.length then "time_multi_line"
      else "time_line"
    else "single_value"
  else if categoryColumns ≠ [] ∧ 1 ≤ numericColumns.length then
    if df.rows ≤ 8 then "pie" else "bar"
  else if 10 < df.rows ∧ 1 ≤ numericColumns.length then
    if df.columns.any (fun c => ["year", "vuosi"].contains (strLower c.name)) then "time_bar"
    else "bar"
  else if df.rows ≤ 10 ∧ 1 ≤ numericColumns.length then "bar"
  else "table"

/-- C8: for a result with more than one row, at least one time column and at
least one numeric column, the selector returns `time_bar` when there are more
than two numeric columns, `time_multi_line` when there are exactly two, and
`time_line` when there is exactly one. -/
theorem detect_visualization_time_series (df : DataFrame)
    (hr : 1 < df.rows)
    (ht : 1 ≤ (df.columns.filter (fun c => timeColumnNames.contains (strLower c.name))).length)
    (hn : 1 ≤ (df.columns.filter (fun c => c.numeric)).length) :
    (2 < (df.columns.filter (fun c => c.numeric)).length →
      detectVisualizationType df = "time_bar")
  ∧ ((df.columns.filter (fun c => c.numeric)).length = 2 →
      detectVisualizationType df = "time_multi_line")
  ∧ ((df.columns.filter (fun c => c.numeric)).length = 1 →
      detectVisualizationType df = "time_line") := by
  have hrow : ¬ (df.rows = 1 ∧ 1 ≤ (df.columns.filter (fun c => c.numeric)).length) := by
    intro hc; omega
  have hrow2 : ¬ (df.rows = 1 ∧ 1 < (df.columns.filter (fun c => c.numeric)).length) := by
    intro hc; omega
  refine ⟨fun h3 => ?_, fun h2 => ?_, fun h1 => ?_⟩
  · unfold detectVisualizationType
    rw [if_neg hrow, if_neg hrow2, if_pos ⟨ht, hn⟩, if_pos hr, if_pos h3]
  · unfold detectVisualizationType
    rw [if_neg hrow, if_neg hrow2, if_pos ⟨ht, hn⟩, if_pos hr, if_neg (by omega),
      if_pos (by omega)]
  · unfold detectVisualizationType
    rw [if_neg hrow, if_neg hrow2, if_pos ⟨ht, hn⟩, if_pos hr, if_neg (by omega),
      if_neg (by omega)]

/-- Witness for C8 at the spec's scenario shape: 5 rows, a `year` time column
and three numeric columns give `time_bar`. -/
theorem detect_visualization_time_series_witness :
    detectVisualizationType
      { rows := 5,
        columns := [⟨"year", false⟩, ⟨"budget", true⟩, ⟨"spending", true⟩, ⟨"extra", true⟩] }
      = "time_bar" :=
  (detect_visualization_time_series
    { rows := 5,
      columns := [⟨"year", false⟩, ⟨"budget", true⟩, ⟨"spending", true⟩, ⟨"extra", true⟩] }
    (by decide) (by decide) (by decide)).1 (by decide)

/-! ### `SecretsManager` (`src/utils/secrets_manager.py`)

`__new__` reads and writes the class attribute `_instance`; the class state is
threaded explicitly. -/

structure SMInstance where
  projectId : String
deriving DecidableEq

/-- `SecretsManager.__new__`: returns the instance and the updated class
state (`_instance`).  The `project_id` argument defaults to
`"massi-financial-analysis"` and is only stored when the instance is first
created. -/
def secretsManagerNew (instanceVar : Option SMInstance)
    (projectId : String := "massi-financial-analysis") : SMInstance × Option SMInstance :=
  match instanceVar with
  | none =>
    let inst : SMInstance := { projectId := projectId }
    (inst, some inst)
  | some inst => (inst, some inst)

/-- C10: `SecretsManager` construction is a singleton frozen at first use:
starting from an empty class state, the first construction fixes the
instance's `project_id`; every later construction — with any `project_id`
argument, repeated any number of times — returns the identical first instance,
leaves the class state unchanged, and silently ignores the new argument. -/
theorem secrets_manager_singleton (p₁ p₂ : String) :
    (secretsManagerNew (secretsManagerNew none p₁).2 p₂ = secretsManagerNew none p₁)
  ∧ ((secretsManagerNew (secretsManagerNew none p₁).2 p₂).1.projectId = p₁)
  ∧ (∀ ps : List String,
      ps.foldl (fun st p => (secretsManagerNew st p).2) (secretsManagerNew none p₁).2
        = (secretsManagerNew none p₁).2) := by
  refine ⟨rfl, rfl, fun ps => ?_⟩
  induction ps with
  | nil => rfl
  | cons p ps' ih => exact ih

end Massi
